import Mathlib

/-!
Shallow embedding of the BIST100-Extractor ingestion pipeline.

Source files embedded:
  * `src/bist_extractor/db.py`   — `init_db`, `ingest_prices` (SQLite upsert with run log)
  * `src/bist_extractor/fetch.py` — `fetch_yahoo_chart`, `fetch_batch`

Machine-level conventions of the embedding:
  * SQLite tables are lists of rows in rowid order; `INSERT ... ON CONFLICT
    DO UPDATE` updates the conflicting row in place, a plain insert appends.
  * pandas timestamps are epoch seconds (`Int`); `strftime("%Y-%m-%d %H:%M:%S")`
    is `fmtEpoch`, computed with the standard civil-from-days algorithm.
  * Timezones are fixed offsets.  Europe/Istanbul is permanently UTC+3 since
    2016-09-07, which covers every instant this pipeline handles, so the
    Istanbul projection is `+ 3 * 3600`.
  * Numeric cells are `Option ℚ` (`none` = SQL NULL / pandas NaN after the
    `where(pd.notnull(...), None)` normalisation).
  * Network traffic is a parameter: each attempt of the host loop is an
    `Attempt` outcome, and `fetch_yahoo_chart` consumes the outcome of the
    attempt with a given index.
-/

namespace Bist

/-! ## Timestamp formatting (`strftime("%Y-%m-%d %H:%M:%S")` on epoch seconds) -/

def pad2 (n : Nat) : String :=
  if n < 10 then "0" ++ toString n else toString n

/-- Civil date from days since 1970-01-01 (Howard Hinnant's algorithm,
the one underlying the datetime libraries the source relies on). -/
def civilFromDays (z0 : Int) : Int × Nat × Nat :=
  let z : Int := z0 + 719468
  let era : Int := z.fdiv 146097
  let doe : Nat := (z - era * 146097).toNat
  let yoe : Nat := (doe - doe / 1460 + doe / 36524 - doe / 146096) / 365
  let y : Int := (yoe : Int) + era * 400
  let doy : Nat := doe - (365 * yoe + yoe / 4 - yoe / 100)
  let mp : Nat := (5 * doy + 2) / 153
  let d : Nat := doy - (153 * mp + 2) / 5 + 1
  let m : Nat := if mp < 10 then mp + 3 else mp - 9
  (if m ≤ 2 then y + 1 else y, m, d)

/-- Render epoch seconds as `YYYY-MM-DD HH:MM:SS` (second precision, no
timezone suffix), the storage format used by `ingest_prices`. -/
def fmtEpoch (t : Int) : String :=
  let days : Int := t.fdiv 86400
  let secs : Nat := (t - days * 86400).toNat
  let c := civilFromDays days
  toString c.1 ++ "-" ++ pad2 c.2.1 ++ "-" ++ pad2 c.2.2 ++ " " ++
    pad2 (secs / 3600) ++ ":" ++ pad2 (secs % 3600 / 60) ++ ":" ++ pad2 (secs % 60)

/-- Europe/Istanbul offset from UTC in seconds (permanent UTC+3). -/
def istOffset : Int := 3 * 3600

/-! ## Data model of the persistence layer (`db.py`) -/

/-- One row of the `prices` table created by `init_db`. -/
@[ext]
structure PriceRow where
  ticker : String
  datetime_utc : String
  datetime_local : String
  datetime_tr : String
  open_ : Option ℚ
  high : Option ℚ
  low : Option ℚ
  close : Option ℚ
  volume : Option ℚ
  adjclose : Option ℚ
  range_str : String
  interval : String
  ingested_at : String
  run_id : String
deriving DecidableEq

/-- One row of the `runs` table created by `init_db`. -/
structure RunRow where
  run_id : String
  started_at : String
  rng : String
  interval : String
  n_rows : Nat
  note : Option String
deriving DecidableEq

/-- The database state the claims are about (`prices` and `runs` tables,
each in rowid order). -/
structure DB where
  prices : List PriceRow
  runs : List RunRow
deriving DecidableEq

/-- `init_db` on a fresh path: empty tables. -/
def initDb : DB := ⟨[], []⟩

/-- Natural key of a `prices` row: `PRIMARY KEY (ticker, datetime_utc, interval)`. -/
def PriceRow.key (p : PriceRow) : String × String × String :=
  (p.ticker, p.datetime_utc, p.interval)

/-- The `ON CONFLICT ... DO UPDATE SET` clause of `ingest_prices`: overwrite
open, high, low, close, volume, adjclose, range_str, ingested_at, run_id of
the conflicting row; every other column of the old row is kept. -/
def setUpd (p r : PriceRow) : PriceRow :=
  { p with
    open_ := r.open_, high := r.high, low := r.low, close := r.close,
    volume := r.volume, adjclose := r.adjclose, range_str := r.range_str,
    ingested_at := r.ingested_at, run_id := r.run_id }

/-- Effect of one `INSERT INTO prices ... ON CONFLICT(ticker, datetime_utc,
interval) DO UPDATE` statement on the table. -/
def upsertPrice (ps : List PriceRow) (r : PriceRow) : List PriceRow :=
  if ∃ p ∈ ps, p.key = r.key then
    ps.map (fun p => if p.key = r.key then setUpd p r else p)
  else
    ps ++ [r]

/-- `cur.executemany` of the upsert statement: rows are processed in batch
order. -/
def upsertAll (ps : List PriceRow) (rs : List PriceRow) : List PriceRow :=
  List.foldl upsertPrice ps rs

/-- `INSERT OR REPLACE INTO runs`: SQLite deletes the row with the
conflicting primary key and inserts the new row (fresh rowid at the end). -/
def replaceRun (rs : List RunRow) (r : RunRow) : List RunRow :=
  rs.filter (fun x => x.run_id ≠ r.run_id) ++ [r]

/-! ## Input batches of `ingest_prices`

A pandas DataFrame is modelled column-major as a list of per-row value
records plus frame-level column-presence flags (a pandas column either
exists for every row or for none).  The `datetime` column is either
tz-aware (one fixed offset for the whole column, values are absolute epoch
seconds) or tz-naive (values are wall-clock seconds). -/

/-- Values of one DataFrame row.  Fields of absent columns are never read:
`ingest_prices` validates presence before using a column. -/
structure SrcRow where
  ticker : String
  dt : Int
  open_ : Option ℚ
  high : Option ℚ
  low : Option ℚ
  close : Option ℚ
  volume : Option ℚ
  adjclose : Option ℚ
  interval : String
  range : String
deriving DecidableEq

/-- An input DataFrame for `ingest_prices`. -/
structure Batch where
  rows : List SrcRow
  /-- `pd.api.types.is_datetime64tz_dtype(d["datetime"])` -/
  tzAware : Bool
  /-- fixed offset (seconds) of the tz-aware column's timezone -/
  tzOff : Int
  hasDatetime : Bool
  hasTicker : Bool
  hasOpen : Bool
  hasHigh : Bool
  hasLow : Bool
  hasClose : Bool
  hasVolume : Bool
  hasAdjclose : Bool
  hasInterval : Bool
  hasRange : Bool
deriving DecidableEq

/-- Column-presence test of the batch, used by the required-column check. -/
def Batch.hasCol (b : Batch) (c : String) : Bool :=
  if c = "ticker" then b.hasTicker
  else if c = "open" then b.hasOpen
  else if c = "high" then b.hasHigh
  else if c = "low" then b.hasLow
  else if c = "close" then b.hasClose
  else if c = "volume" then b.hasVolume
  else false

/-- The required-column list checked by `ingest_prices` (line 167). -/
def requiredCols : List String :=
  ["ticker", "open", "high", "low", "close", "volume"]

/-- `missing = [c for c in [...] if c not in d.columns]` -/
def missingRequired (b : Batch) : List String :=
  requiredCols.filter (fun c => ! b.hasCol c)

/-- UTC instant of a row: for a tz-aware column `tz_convert("UTC")` keeps the
instant; for a naive column `pd.to_datetime(..., utc=True)` reads the wall
clock as UTC, so the same value again. -/
def dtUtcOf (_b : Batch) (r : SrcRow) : Int := r.dt

/-- Local wall clock of a row: tz-aware column → instant shifted by the
column's offset; naive column → the value itself (`dt_local = d["datetime"]`). -/
def dtLocalOf (b : Batch) (r : SrcRow) : Int :=
  if b.tzAware then r.dt + b.tzOff else r.dt

/-- Istanbul wall clock of a row (`tz_convert("Europe/Istanbul")` applied to
the UTC instant in both branches). -/
def dtTrOf (_b : Batch) (r : SrcRow) : Int := r.dt + istOffset

/-- The `prices` row derived from one batch row by `ingest_prices`
(datetime normalisation, column defaults, ingestion stamps). -/
def toRow (b : Batch) (rng interval rid now : String) (r : SrcRow) : PriceRow :=
  { ticker := r.ticker
    datetime_utc := fmtEpoch (dtUtcOf b r)
    datetime_local := fmtEpoch (dtLocalOf b r)
    datetime_tr := fmtEpoch (dtTrOf b r)
    open_ := r.open_
    high := r.high
    low := r.low
    close := r.close
    volume := r.volume
    adjclose := r.adjclose
    range_str := if b.hasRange then r.range else rng
    interval := if b.hasInterval then r.interval else interval
    ingested_at := now
    run_id := rid }

/-- All derived rows of a batch, in order. -/
def toRows (b : Batch) (rng interval rid now : String) : List PriceRow :=
  b.rows.map (toRow b rng interval rid now)

/-- Natural keys the batch writes (independent of the run id and the
ingestion timestamp, which are not key columns). -/
def batchKeys (b : Batch) (rng interval : String) : List (String × String × String) :=
  (toRows b rng interval "" "").map PriceRow.key

/-- Errors `ingest_prices` can raise before touching the database. -/
inductive IngestErr where
  /-- `ValueError` at line 115: no `datetime` column. -/
  | missingDatetime : IngestErr
  /-- `ValueError` at line 171: required columns absent (the validation
  error of the spec). -/
  | missingCols : List String → IngestErr
  /-- `KeyError` from `d[cols]` when `adjclose` is absent. -/
  | keyErrorAdjclose : IngestErr
deriving DecidableEq

/-- `ingest_prices(df, rng, interval, db_path, run_id, note)`.

`fresh` is the `uuid4` drawn when `run_id is None`; `now` is
`datetime.now(UTC)` formatted to seconds.  On success returns the new
database state and the run id the call used (also its return value). -/
def ingest_prices (b : Batch) (rng interval : String) (runId? : Option String)
    (note : Option String) (fresh now : String) (db : DB) :
    Except IngestErr (DB × String) :=
  let rid := runId?.getD fresh
  if b.hasDatetime = false then
    .error .missingDatetime
  else if missingRequired b = [] then
    if b.hasAdjclose = false then
      .error .keyErrorAdjclose
    else
      let rows := toRows b rng interval rid now
      .ok (⟨upsertAll db.prices rows,
            replaceRun db.runs ⟨rid, now, rng, interval, b.rows.length, note⟩⟩,
           rid)
  else
    .error (.missingCols (missingRequired b))

/-- Observable database state after a call: an exception leaves the tables
exactly as they were (the connection is only opened after validation). -/
def runIngest (b : Batch) (rng interval : String) (runId? : Option String)
    (note : Option String) (fresh now : String) (db : DB) : DB × Option String :=
  match ingest_prices b rng interval runId? note fresh now db with
  | .ok (db2, rid) => (db2, some rid)
  | .error _ => (db, none)

/-- States reachable from a fresh `init_db` schema by any number of
`ingest_prices` calls. -/
inductive Reachable : DB → Prop where
  | init : Reachable initDb
  | step {db : DB} (b : Batch) (rng interval : String) (runId? : Option String)
      (note : Option String) (fresh now : String) :
      Reachable db → Reachable (runIngest b rng interval runId? note fresh now db).1

/-! ## Chart fetcher (`fetch.py`) -/

/-- The provider's first `chart.result` entry, as far as the parser reads it. -/
structure ChartResult where
  /-- fixed offset of `meta.timezone`; `none` models an unrecognised
  timezone string (the `tz_convert` fallback keeps UTC). -/
  tzOff : Option Int
  timestamp : List Int
  open_ : List (Option ℚ)
  high : List (Option ℚ)
  low : List (Option ℚ)
  close : List (Option ℚ)
  volume : List (Option ℚ)
  /-- `indicators.adjclose[0].adjclose`; an absent block and an empty array
  behave identically (`adj_list` is falsy), so both are `[]`. -/
  adjclose : List (Option ℚ)
  /-- the raw `meta` object, returned verbatim alongside the rows. -/
  metaPayload : String
deriving DecidableEq

/-- A parsed JSON response body (`data["chart"]`). -/
structure ChartBody where
  err : Option String
  result : List ChartResult
deriving DecidableEq

/-- Outcome of one iteration of the `for host in hosts * 2` loop. -/
inductive Attempt where
  /-- `r.status_code == 429`: sleep and continue, `last_exc` untouched. -/
  | rateLimited : Attempt
  /-- any exception (connection error, `raise_for_status`, unparseable
  JSON): recorded in `last_exc`, sleep and continue. -/
  | fail : String → Attempt
  /-- a parseable JSON body: `data = r.json(); break`. -/
  | ok : ChartBody → Attempt
deriving DecidableEq

def Attempt.isOk : Attempt → Bool
  | .ok _ => true
  | _ => false

/-- Failure modes of `fetch_yahoo_chart` (all raised as `RuntimeError` /
`ValueError` in the source; the spec names them as shown). -/
inductive FetchErr where
  /-- `RuntimeError("Failed to fetch ...")` when the loop ends with no body. -/
  | fetchFailure : Option String → FetchErr
  /-- `RuntimeError("Yahoo API error ...")` when `chart.error` is set. -/
  | providerError : String → FetchErr
  /-- `RuntimeError("Empty result ...")` when no result entry exists. -/
  | emptyResult : FetchErr
  /-- `ValueError("No timestamps ...")` when the timestamp array is empty. -/
  | noData : FetchErr
deriving DecidableEq

/-- `str(e)` of the exception, as recorded by `fetch_batch` in its error
dict. -/
def errStr (sym : String) : FetchErr → String
  | .fetchFailure none => "Failed to fetch " ++ sym ++ ". Last error: None"
  | .fetchFailure (some e) => "Failed to fetch " ++ sym ++ ". Last error: " ++ e
  | .providerError e => "Yahoo API error for " ++ sym ++ ": " ++ e
  | .emptyResult => "Empty result for " ++ sym ++ "."
  | .noData => "No timestamps for " ++ sym ++ "."

/-- The two API hosts, in the order the source lists them. -/
def hosts : List String :=
  ["query1.finance.yahoo.com", "query2.finance.yahoo.com"]

/-- `hosts * 2`: the host of each loop iteration, round-robin, two passes. -/
def hostsTwice : List String := hosts ++ hosts

/-- The request loop: walk the attempt outcomes in order, threading
`last_exc`; stop at the first parseable body, otherwise report the last
recorded error. -/
def tryHostsGo : List Attempt → Option String → Except (Option String) ChartBody
  | [], last => .error last
  | a :: rest, last =>
    match a with
    | .ok b => .ok b
    | .rateLimited => tryHostsGo rest last
    | .fail e => tryHostsGo rest (some e)

def tryHosts (atts : List Attempt) : Except (Option String) ChartBody :=
  tryHostsGo atts none

/-- The value `last_exc` holds when the loop falls through. -/
def lastFailure (atts : List Attempt) : Option String :=
  List.foldl
    (fun acc a => match a with
      | .fail e => some e
      | _ => acc)
    none atts

/-- One produced output row of `fetch_yahoo_chart`. -/
structure FetchRow where
  /-- the absolute UTC instant (epoch seconds) of the row's `datetime`. -/
  instant : Int
  /-- display offset of the tz-aware `datetime` column (provider timezone,
  0 when the conversion fell back to UTC). -/
  tzOff : Int
  open_ : Option ℚ
  high : Option ℚ
  low : Option ℚ
  close : Option ℚ
  volume : Option ℚ
  adjclose : Option ℚ
  ticker : String
  range : String
  interval : String
deriving DecidableEq

/-- pandas column assignment `df[col] = pd.Series(short_list)` aligns on the
row index: positions beyond the list are NaN, positions beyond the frame are
dropped. -/
def colAt (arr : List (Option ℚ)) (i : Nat) : Option ℚ :=
  arr.getD i none

/-- The adjusted-close guard: `if adj_list and len(adj_list) == len(df)`. -/
def adjUsable (cr : ChartResult) : Prop :=
  cr.adjclose ≠ [] ∧ cr.adjclose.length = cr.timestamp.length

instance (cr : ChartResult) : Decidable (adjUsable cr) := by
  unfold adjUsable; infer_instance

/-- Row `i` of the frame built from a chart result. -/
def buildRow (sym rng interval : String) (cr : ChartResult) (i : Nat) (t : Int) :
    FetchRow :=
  { instant := t
    tzOff := cr.tzOff.getD 0
    open_ := colAt cr.open_ i
    high := colAt cr.high i
    low := colAt cr.low i
    close := colAt cr.close i
    volume := colAt cr.volume i
    adjclose := if adjUsable cr then colAt cr.adjclose i else none
    ticker := sym
    range := rng
    interval := interval }

/-- One row per timestamp, before the final sort. -/
def buildRows (sym rng interval : String) (cr : ChartResult) : List FetchRow :=
  cr.timestamp.enum.map (fun p => buildRow sym rng interval cr p.1 p.2)

/-- `df.sort_values("datetime")`: sort rows by their instant (tz-aware
timestamps compare as instants). -/
def insertByInstant (r : FetchRow) : List FetchRow → List FetchRow
  | [] => [r]
  | q :: rest =>
    if r.instant ≤ q.instant then r :: q :: rest else q :: insertByInstant r rest

def sortByInstant : List FetchRow → List FetchRow
  | [] => []
  | r :: rest => insertByInstant r (sortByInstant rest)

/-- Response handling of `fetch_yahoo_chart` after a parseable body was
obtained (lines 67–115). -/
def parseChart (sym rng interval : String) (body : ChartBody) :
    Except FetchErr (List FetchRow × String) :=
  match body.err with
  | some e => .error (.providerError e)
  | none =>
    match body.result.head? with
    | none => .error .emptyResult
    | some cr =>
      if cr.timestamp = [] then .error .noData
      else .ok (sortByInstant (buildRows sym rng interval cr), cr.metaPayload)

/-- `fetch_yahoo_chart(symbol, rng, interval, ...)` with the network
abstracted: `net i` is the outcome of loop iteration `i` (against host
`hostsTwice[i]`). -/
def fetch_yahoo_chart (sym rng interval : String) (net : Nat → Attempt) :
    Except FetchErr (List FetchRow × String) :=
  match tryHosts ((List.range hostsTwice.length).map net) with
  | .error last => .error (.fetchFailure last)
  | .ok body => parseChart sym rng interval body

/-! ## Batch orchestrator (`fetch_batch`) -/

def isOkE {ε α : Type} : Except ε α → Bool
  | .ok _ => true
  | .error _ => false

/-- Rows contributed by one symbol's fetch result (a failed symbol
contributes none). -/
def rowsOf (res : Except FetchErr (List FetchRow × String)) : List FetchRow :=
  match res with
  | .ok p => p.1
  | .error _ => []

/-- The sequential loop of `fetch_batch`: frames are concatenated in symbol
order, metadata and error entries are recorded under the symbol. -/
def fetchBatchGo (fetchOne : String → Except FetchErr (List FetchRow × String)) :
    List String → List FetchRow × List (String × String) × List (String × String)
  | [] => ([], [], [])
  | s :: rest =>
    let t := fetchBatchGo fetchOne rest
    match fetchOne s with
    | .ok pr => (pr.1 ++ t.1, (s, pr.2) :: t.2.1, t.2.2)
    | .error e => (t.1, t.2.1, (s, errStr s e) :: t.2.2)

/-- `fetch_batch(symbols, rng, interval, ...)`: returns the concatenated
row table, the symbol→meta map and the symbol→error map.  `net` gives each
symbol's per-attempt network outcomes. -/
def fetch_batch (symbols : List String) (rng interval : String)
    (net : String → Nat → Attempt) :
    List FetchRow × List (String × String) × List (String × String) :=
  fetchBatchGo (fun s => fetch_yahoo_chart s rng interval (net s)) symbols

/-- Whether a symbol's fetch succeeds under the given network behaviour. -/
def fetchOk (rng interval : String) (net : String → Nat → Attempt) (s : String) :
    Bool :=
  isOkE (fetch_yahoo_chart s rng interval (net s))

/-! ## Derived notions used by the verification -/

/-- Equality on the fields the conflict-update never touches: the natural
key plus the two non-key datetime projections. -/
def frameEq (p q : PriceRow) : Prop :=
  p.ticker = q.ticker ∧ p.datetime_utc = q.datetime_utc ∧
  p.datetime_local = q.datetime_local ∧ p.datetime_tr = q.datetime_tr ∧
  p.interval = q.interval

/-- `t` extends `s` positionally and every original position keeps its
identity fields (ticker, the three datetime strings, interval). -/
def framePres (s t : List PriceRow) : Prop :=
  s.length ≤ t.length ∧
  ∀ i (h1 : i < s.length) (h2 : i < t.length), frameEq t[i] s[i]

/-- No two rows of the table share the natural key. -/
def keysNodup (ps : List PriceRow) : Prop :=
  ps.Pairwise (fun a b => a.key ≠ b.key)

/-- The last row of a batch carrying a given natural key. -/
def lastFor (rs : List PriceRow) (k : String × String × String) : Option PriceRow :=
  match rs with
  | [] => none
  | r :: rest =>
    match lastFor rest k with
    | some q => some q
    | none => if r.key = k then some r else none

/-- Net effect on one table row of replaying a batch all of whose keys are
already present: the last batch row with the same key wins. -/
def applyLast (rs : List PriceRow) (p : PriceRow) : PriceRow :=
  match lastFor rs p.key with
  | none => p
  | some r => setUpd p r

/-- Overwrite only the two ingestion stamps of a row. -/
def restamp (now rid : String) (p : PriceRow) : PriceRow :=
  { p with ingested_at := now, run_id := rid }

/-- Equality on the fields the conflict-update does overwrite. -/
def updEq (p r : PriceRow) : Prop :=
  p.open_ = r.open_ ∧ p.high = r.high ∧ p.low = r.low ∧ p.close = r.close ∧
  p.volume = r.volume ∧ p.adjclose = r.adjclose ∧ p.range_str = r.range_str ∧
  p.ingested_at = r.ingested_at ∧ p.run_id = r.run_id

/-! ## Concrete inputs used for evaluation -/

/-- A one-row tz-naive batch (wall clock 2023-11-14 22:13:20 read as UTC). -/
def exSrcRow : SrcRow :=
  { ticker := "AKBNK.IS", dt := 1700000000, open_ := some 10, high := some 11,
    low := some 9, close := some 12, volume := some 1000, adjclose := none,
    interval := "", range := "" }

def exBatch : Batch :=
  { rows := [exSrcRow], tzAware := false, tzOff := 0, hasDatetime := true,
    hasTicker := true, hasOpen := true, hasHigh := true, hasLow := true,
    hasClose := true, hasVolume := true, hasAdjclose := true,
    hasInterval := false, hasRange := false }

/-- The same batch without its `volume` column. -/
def exBatchNoVol : Batch := { exBatch with hasVolume := false }

/-- State after ingesting `exBatch` into a fresh schema under run id
`run-1`. -/
def exDb1 : DB :=
  (runIngest exBatch "12d" "5m" (some "run-1") none "f1"
    "2024-01-01 00:00:00" initDb).1

/-- State after re-ingesting the identical batch five minutes later, with
the same run id. -/
def exDb2 : DB :=
  (runIngest exBatch "12d" "5m" (some "run-1") none "f2"
    "2024-01-01 00:05:00" exDb1).1

/-- The chart result of the C5 example: one timestamp, the given quote
block, no adjclose. -/
def exChart : ChartResult :=
  { tzOff := none, timestamp := [1700000000],
    open_ := [some (10.5 : ℚ)], high := [some (11.0 : ℚ)],
    low := [some (10.0 : ℚ)], close := [some (10.8 : ℚ)],
    volume := [some 1000], adjclose := [], metaPayload := "meta" }

def exBody : ChartBody := { err := none, result := [exChart] }

/-- A chart result whose quote arrays all have lengths different from the
timestamp array (3 timestamps; arrays of length 1, 0, 4, 2, 0; adjclose of
length 2). -/
def exChartMismatch : ChartResult :=
  { tzOff := some 10800, timestamp := [1700000600, 1700000000, 1700000300],
    open_ := [some 1], high := [],
    low := [some 1, some 2, some 3, some 4], close := [some 1, some 2],
    volume := [], adjclose := [some 5, some 6], metaPayload := "m2" }

def exBodyMismatch : ChartBody := { err := none, result := [exChartMismatch] }

/-- A network behaviour whose first attempt fails and whose later attempts
return `exBody`. -/
def exNet : Nat → Attempt := fun i => if i = 0 then .fail "boom" else .ok exBody

/-! ## Basic facts about the upsert -/

theorem setUpd_key (p r : PriceRow) : (setUpd p r).key = p.key := rfl

theorem setUpd_setUpd (p a b : PriceRow) : setUpd (setUpd p a) b = setUpd p b := rfl

theorem restamp_key (now rid : String) (p : PriceRow) :
    (restamp now rid p).key = p.key := rfl

theorem condUpd_key (r p : PriceRow) :
    (if p.key = r.key then setUpd p r else p).key = p.key := by
  by_cases h : p.key = r.key
  · rw [if_pos h, setUpd_key]
  · rw [if_neg h]

theorem upsertPrice_pos (ps : List PriceRow) (r : PriceRow)
    (h : ∃ p ∈ ps, p.key = r.key) :
    upsertPrice ps r = ps.map (fun p => if p.key = r.key then setUpd p r else p) := by
  unfold upsertPrice
  rw [if_pos h]

theorem upsertPrice_neg (ps : List PriceRow) (r : PriceRow)
    (h : ¬ ∃ p ∈ ps, p.key = r.key) :
    upsertPrice ps r = ps ++ [r] := by
  unfold upsertPrice
  rw [if_neg h]

theorem upsertAll_nil (ps : List PriceRow) : upsertAll ps [] = ps := rfl

theorem upsertAll_cons (ps : List PriceRow) (r : PriceRow) (rs : List PriceRow) :
    upsertAll ps (r :: rs) = upsertAll (upsertPrice ps r) rs := rfl

theorem upsertAll_append_singleton (ps rs : List PriceRow) (r : PriceRow) :
    upsertAll ps (rs ++ [r]) = upsertPrice (upsertAll ps rs) r := by
  unfold upsertAll
  rw [List.foldl_append]
  rfl

/-- Upserting never removes a key: any key present before stays present. -/
theorem upsertPrice_key_pres (ps : List PriceRow) (r : PriceRow)
    (k : String × String × String) (h : ∃ p ∈ ps, p.key = k) :
    ∃ q ∈ upsertPrice ps r, q.key = k := by
  obtain ⟨p, hp, hk⟩ := h
  by_cases hs : ∃ p ∈ ps, p.key = r.key
  · rw [upsertPrice_pos ps r hs]
    exact ⟨_, List.mem_map_of_mem _ hp, by rw [condUpd_key]; exact hk⟩
  · rw [upsertPrice_neg ps r hs]
    exact ⟨p, List.mem_append_left _ hp, hk⟩

/-- After an upsert the upserted row's key is present. -/
theorem upsertPrice_key_new (ps : List PriceRow) (r : PriceRow) :
    ∃ q ∈ upsertPrice ps r, q.key = r.key := by
  by_cases hs : ∃ p ∈ ps, p.key = r.key
  · obtain ⟨p, hp, hk⟩ := hs
    rw [upsertPrice_pos ps r ⟨p, hp, hk⟩]
    exact ⟨_, List.mem_map_of_mem _ hp, by rw [condUpd_key]; exact hk⟩
  · rw [upsertPrice_neg ps r hs]
    exact ⟨r, List.mem_append_right _ (by simp), rfl⟩

theorem upsertAll_key_pres (rs : List PriceRow) (ps : List PriceRow)
    (k : String × String × String) (h : ∃ p ∈ ps, p.key = k) :
    ∃ q ∈ upsertAll ps rs, q.key = k := by
  induction rs generalizing ps with
  | nil => exact h
  | cons r rest ih =>
    rw [upsertAll_cons]
    exact ih _ (upsertPrice_key_pres ps r k h)

/-- Every key of the batch is present after the batch was upserted. -/
theorem upsertAll_key_mem (rs : List PriceRow) (ps : List PriceRow)
    (r : PriceRow) (hr : r ∈ rs) :
    ∃ q ∈ upsertAll ps rs, q.key = r.key := by
  induction rs generalizing ps with
  | nil => cases hr
  | cons a rest ih =>
    rw [upsertAll_cons]
    rw [List.mem_cons] at hr
    rcases hr with rfl | hr
    · exact upsertAll_key_pres rest _ _ (upsertPrice_key_new ps r)
    · exact ih _ hr

/-! ## C2: uniqueness of the natural key -/

theorem keysNodup_upsert (ps : List PriceRow) (r : PriceRow)
    (h : keysNodup ps) : keysNodup (upsertPrice ps r) := by
  by_cases hs : ∃ p ∈ ps, p.key = r.key
  · rw [upsertPrice_pos ps r hs]
    unfold keysNodup at h ⊢
    rw [List.pairwise_map]
    exact h.imp (fun hab => by rwa [condUpd_key, condUpd_key])
  · rw [upsertPrice_neg ps r hs]
    unfold keysNodup at h ⊢
    rw [List.pairwise_append]
    refine ⟨h, List.pairwise_singleton _ _, ?_⟩
    intro a ha b hb
    rw [List.mem_singleton] at hb
    subst hb
    intro hk
    exact hs ⟨a, ha, hk⟩

theorem keysNodup_upsertAll (rs : List PriceRow) (ps : List PriceRow)
    (h : keysNodup ps) : keysNodup (upsertAll ps rs) := by
  induction rs generalizing ps with
  | nil => exact h
  | cons r rest ih =>
    rw [upsertAll_cons]
    exact ih _ (keysNodup_upsert ps r h)

/-- Inversion of a successful `ingest_prices` call. -/
theorem ingest_ok_inv {b : Batch} {rng interval : String} {runId? : Option String}
    {note : Option String} {fresh now : String} {db db2 : DB} {rid : String}
    (h : ingest_prices b rng interval runId? note fresh now db = .ok (db2, rid)) :
    rid = runId?.getD fresh ∧
    db2.prices = upsertAll db.prices (toRows b rng interval rid now) ∧
    db2.runs = replaceRun db.runs ⟨rid, now, rng, interval, b.rows.length, note⟩ ∧
    b.hasDatetime = true ∧ missingRequired b = [] ∧ b.hasAdjclose = true := by
  unfold ingest_prices at h
  split at h
  · exact absurd h (by simp)
  · next hdt =>
    split at h
    · next hm =>
      split at h
      · exact absurd h (by simp)
      · next hadj =>
        rw [Except.ok.injEq, Prod.mk.injEq] at h
        obtain ⟨hdb, hrid⟩ := h
        subst hrid
        subst hdb
        refine ⟨rfl, rfl, rfl, ?_, hm, ?_⟩
        · cases hb : b.hasDatetime
          · exact absurd hb hdt
          · rfl
        · cases hb : b.hasAdjclose
          · exact absurd hb hadj
          · rfl
    · exact absurd h (by simp)

/-- C2: after any number of `ingest_prices` calls on a schema created by
`init_db`, the triple (ticker, datetime_utc string, interval) is unique in
the `prices` table: no two rows ever share that natural key. -/
theorem C2_natural_key_unique (db : DB) (h : Reachable db) : keysNodup db.prices := by
  induction h with
  | init => exact List.Pairwise.nil
  | step b rng interval runId? note fresh now _ ih =>
    unfold runIngest
    split
    · next db2 rid heq =>
      obtain ⟨_, hp, _⟩ := ingest_ok_inv heq
      rw [hp]
      exact keysNodup_upsertAll _ _ ih
    · exact ih

/-! ## C9: the conflict-update leaves the identity fields in place -/

theorem frameEq_refl (p : PriceRow) : frameEq p p := ⟨rfl, rfl, rfl, rfl, rfl⟩

theorem frameEq_trans {p q r : PriceRow} (h1 : frameEq p q) (h2 : frameEq q r) :
    frameEq p r := by
  obtain ⟨a1, b1, c1, d1, e1⟩ := h1
  obtain ⟨a2, b2, c2, d2, e2⟩ := h2
  exact ⟨a1.trans a2, b1.trans b2, c1.trans c2, d1.trans d2, e1.trans e2⟩

theorem frameEq_setUpd (p r : PriceRow) : frameEq (setUpd p r) p :=
  ⟨rfl, rfl, rfl, rfl, rfl⟩

theorem frameEq_condUpd (r p : PriceRow) :
    frameEq (if p.key = r.key then setUpd p r else p) p := by
  by_cases h : p.key = r.key
  · rw [if_pos h]
    exact frameEq_setUpd p r
  · rw [if_neg h]
    exact frameEq_refl p

theorem framePres_refl (s : List PriceRow) : framePres s s :=
  ⟨le_refl _, fun _ _ _ => frameEq_refl _⟩

theorem framePres_trans {s t u : List PriceRow}
    (h1 : framePres s t) (h2 : framePres t u) : framePres s u :=
  ⟨le_trans h1.1 h2.1, fun i hi1 hi2 =>
    frameEq_trans (h2.2 i (lt_of_lt_of_le hi1 h1.1) hi2) (h1.2 i hi1 _)⟩

theorem framePres_upsert (s : List PriceRow) (r : PriceRow) :
    framePres s (upsertPrice s r) := by
  by_cases hs : ∃ p ∈ s, p.key = r.key
  · rw [upsertPrice_pos s r hs]
    refine ⟨le_of_eq (List.length_map _ _).symm, fun i h1 h2 => ?_⟩
    rw [List.getElem_map]
    exact frameEq_condUpd r _
  · rw [upsertPrice_neg s r hs]
    refine ⟨by simp, fun i h1 h2 => ?_⟩
    rw [List.getElem_append_left h1]
    exact frameEq_refl _

theorem framePres_upsertAll (rs : List PriceRow) (s : List PriceRow) :
    framePres s (upsertAll s rs) := by
  induction rs generalizing s with
  | nil => exact framePres_refl s
  | cons r rest ih =>
    rw [upsertAll_cons]
    exact framePres_trans (framePres_upsert s r) (ih _)

/-- C9: when an incoming row conflicts with an existing `prices` row on
(ticker, datetime_utc, interval), the existing row's `datetime_local` and
`datetime_tr` are left unchanged: the conflict-update overwrites only open,
high, low, close, volume, adjclose, range_str, ingested_at and run_id.
Formally, every pre-existing row position keeps all its identity fields
(ticker, datetime_utc, datetime_local, datetime_tr, interval) across a
successful call. -/
theorem C9_conflict_update_frame {b : Batch} {rng interval : String}
    {runId? note : Option String} {fresh now : String} {db db2 : DB} {rid : String}
    (h : ingest_prices b rng interval runId? note fresh now db = .ok (db2, rid)) :
    framePres db.prices db2.prices := by
  obtain ⟨_, hp, _⟩ := ingest_ok_inv h
  rw [hp]
  exact framePres_upsertAll _ _

/-! ## C10: a naive datetime column is read as UTC -/

theorem toRow_naive_utc_eq_local {b : Batch} (hn : b.tzAware = false)
    (rng interval rid now : String) (r : SrcRow) :
    (toRow b rng interval rid now r).datetime_utc
      = (toRow b rng interval rid now r).datetime_local := by
  simp [toRow, dtUtcOf, dtLocalOf, hn]

theorem upsertPrice_pres_uel (ps : List PriceRow) (r : PriceRow)
    (hps : ∀ p ∈ ps, p.datetime_utc = p.datetime_local)
    (hr : r.datetime_utc = r.datetime_local) :
    ∀ q ∈ upsertPrice ps r, q.datetime_utc = q.datetime_local := by
  intro q hq
  by_cases hs : ∃ p ∈ ps, p.key = r.key
  · rw [upsertPrice_pos ps r hs] at hq
    obtain ⟨p, hp, rfl⟩ := List.mem_map.mp hq
    by_cases hk : p.key = r.key
    · rw [if_pos hk]
      exact hps p hp
    · rw [if_neg hk]
      exact hps p hp
  · rw [upsertPrice_neg ps r hs] at hq
    rcases List.mem_append.mp hq with hq | hq
    · exact hps q hq
    · rw [List.mem_singleton] at hq
      subst hq
      exact hr

theorem upsertAll_pres_uel (rs : List PriceRow) (ps : List PriceRow)
    (hps : ∀ p ∈ ps, p.datetime_utc = p.datetime_local)
    (hrs : ∀ r ∈ rs, r.datetime_utc = r.datetime_local) :
    ∀ q ∈ upsertAll ps rs, q.datetime_utc = q.datetime_local := by
  induction rs generalizing ps with
  | nil => exact hps
  | cons r rest ih =>
    rw [upsertAll_cons]
    exact ih _
      (upsertPrice_pres_uel ps r hps (hrs r (by simp)))
      (fun x hx => hrs x (by simp [hx]))

/-- C10: for every input batch whose datetime column is timezone-naive,
`ingest_prices` treats the naive instants as UTC, so every stored row keeps
`datetime_utc` equal to `datetime_local` (stated as preservation of that
table invariant by a call on a naive batch). -/
theorem C10_naive_treated_as_utc {b : Batch} {rng interval : String}
    {runId? note : Option String} {fresh now : String} {db db2 : DB} {rid : String}
    (hn : b.tzAware = false)
    (hdb : ∀ p ∈ db.prices, p.datetime_utc = p.datetime_local)
    (h : ingest_prices b rng interval runId? note fresh now db = .ok (db2, rid)) :
    ∀ p ∈ db2.prices, p.datetime_utc = p.datetime_local := by
  obtain ⟨_, hp, _⟩ := ingest_ok_inv h
  rw [hp]
  refine upsertAll_pres_uel _ _ hdb ?_
  intro r hr
  obtain ⟨x, _, rfl⟩ := List.mem_map.mp hr
  exact toRow_naive_utc_eq_local hn rng interval rid now x

/-! ## C3: validation failures happen before any write -/

/-- C3: for every input batch that has a `datetime` column but is missing at
least one required column among ticker, open, high, low, close, volume,
`ingest_prices` raises the validation `ValueError` before performing any
write: the `prices` and `runs` tables are unchanged by the call. -/
theorem C3_missing_required_fails {b : Batch} (rng interval : String)
    (runId? note : Option String) (fresh now : String) (db : DB)
    (hdt : b.hasDatetime = true) (hm : missingRequired b ≠ []) :
    ingest_prices b rng interval runId? note fresh now db
      = .error (.missingCols (missingRequired b)) ∧
    runIngest b rng interval runId? note fresh now db = (db, none) := by
  have h1 : ingest_prices b rng interval runId? note fresh now db
      = .error (.missingCols (missingRequired b)) := by
    simp [ingest_prices, hdt, hm]
  refine ⟨h1, ?_⟩
  unfold runIngest
  rw [h1]

/-! ## C1: replaying an identical batch -/

theorem lastFor_cons_some {rest : List PriceRow} {k : String × String × String}
    {q : PriceRow} (a : PriceRow) (e : lastFor rest k = some q) :
    lastFor (a :: rest) k = some q := by
  unfold lastFor
  rw [e]

theorem lastFor_cons_none {rest : List PriceRow} {k : String × String × String}
    (a : PriceRow) (e : lastFor rest k = none) :
    lastFor (a :: rest) k = if a.key = k then some a else none := by
  unfold lastFor
  rw [e]

theorem lastFor_mem {rs : List PriceRow} {k : String × String × String}
    {q : PriceRow} (h : lastFor rs k = some q) : q ∈ rs ∧ q.key = k := by
  induction rs with
  | nil => cases h
  | cons a rest ih =>
    cases e : lastFor rest k with
    | some q2 =>
      rw [lastFor_cons_some a e] at h
      obtain rfl := Option.some.inj h
      obtain ⟨hm, hk⟩ := ih e
      exact ⟨List.mem_cons_of_mem a hm, hk⟩
    | none =>
      rw [lastFor_cons_none a e] at h
      by_cases ha : a.key = k
      · rw [if_pos ha] at h
        obtain rfl := Option.some.inj h
        exact ⟨List.mem_cons_self a rest, ha⟩
      · rw [if_neg ha] at h
        cases h

theorem lastFor_none_iff {rs : List PriceRow} {k : String × String × String} :
    lastFor rs k = none ↔ ∀ r ∈ rs, r.key ≠ k := by
  induction rs with
  | nil => simp [lastFor]
  | cons a rest ih =>
    cases e : lastFor rest k with
    | some q =>
      rw [lastFor_cons_some a e]
      refine ⟨fun h => (by cases h), fun h => ?_⟩
      exact absurd (lastFor_mem e).2 (h q (List.mem_cons_of_mem a (lastFor_mem e).1))
    | none =>
      rw [lastFor_cons_none a e]
      by_cases ha : a.key = k
      · rw [if_pos ha]
        exact ⟨fun h => (by cases h), fun h => absurd ha (h a (List.mem_cons_self a rest))⟩
      · rw [if_neg ha]
        refine ⟨fun _ r hr => ?_, fun _ => rfl⟩
        rcases List.mem_cons.mp hr with rfl | hr2
        · exact ha
        · exact (ih.mp e) r hr2

theorem applyLast_nil (p : PriceRow) : applyLast [] p = p := rfl

theorem applyLast_cons (r : PriceRow) (rest : List PriceRow) (p : PriceRow) :
    applyLast rest (if p.key = r.key then setUpd p r else p) = applyLast (r :: rest) p := by
  by_cases hk : p.key = r.key
  · rw [if_pos hk]
    unfold applyLast
    rw [show (setUpd p r).key = p.key from rfl]
    cases e : lastFor rest p.key with
    | none =>
      rw [lastFor_cons_none r e, if_pos hk.symm]
    | some q =>
      rw [lastFor_cons_some r e]
      rfl
  · rw [if_neg hk]
    unfold applyLast
    cases e : lastFor rest p.key with
    | none =>
      rw [lastFor_cons_none r e, if_neg (fun hrk => hk hrk.symm)]
    | some q =>
      rw [lastFor_cons_some r e]

/-- Replaying a batch all of whose keys are already in the table only
updates in place: the table becomes a pointwise image. -/
theorem upsertAll_all_present (rs : List PriceRow) (ps : List PriceRow)
    (h : ∀ r ∈ rs, ∃ p ∈ ps, p.key = r.key) :
    upsertAll ps rs = ps.map (applyLast rs) := by
  induction rs generalizing ps with
  | nil =>
    rw [upsertAll_nil]
    exact ((List.map_congr_left (fun p _ => applyLast_nil p)).trans (List.map_id ps)).symm
  | cons r rest ih =>
    have hr : ∃ p ∈ ps, p.key = r.key := h r (List.mem_cons_self r rest)
    have hsub : ∀ r2 ∈ rest,
        ∃ p ∈ ps.map (fun p => if p.key = r.key then setUpd p r else p), p.key = r2.key := by
      intro r2 hr2
      obtain ⟨p, hp, hk⟩ := h r2 (List.mem_cons_of_mem r hr2)
      exact ⟨_, List.mem_map_of_mem _ hp, by rw [condUpd_key]; exact hk⟩
    rw [upsertAll_cons, upsertPrice_pos ps r hr, ih _ hsub, List.map_map]
    apply List.map_congr_left
    intro p _
    exact applyLast_cons r rest p

theorem lastFor_append (l : List PriceRow) (r : PriceRow) (k : String × String × String) :
    lastFor (l ++ [r]) k = if r.key = k then some r else lastFor l k := by
  induction l with
  | nil =>
    simp only [List.nil_append]
    rw [lastFor_cons_none r (show lastFor [] k = none from rfl)]
    rfl
  | cons a l ih =>
    simp only [List.cons_append]
    cases e : lastFor (l ++ [r]) k with
    | some q =>
      rw [lastFor_cons_some a e]
      rw [ih] at e
      by_cases hrk : r.key = k
      · rw [if_pos hrk] at e
        rw [if_pos hrk]
        exact e.symm
      · rw [if_neg hrk] at e
        rw [if_neg hrk, lastFor_cons_some a e]
    | none =>
      rw [lastFor_cons_none a e]
      rw [ih] at e
      by_cases hrk : r.key = k
      · rw [if_pos hrk] at e
        cases e
      · rw [if_neg hrk] at e
        rw [if_neg hrk, lastFor_cons_none a e]

/-- After upserting a batch, a row whose key the batch wrote carries exactly
the update fields of the last batch row with that key. -/
theorem upsertAll_lastFor (rs : List PriceRow) :
    ∀ (ps : List PriceRow) (p : PriceRow), p ∈ upsertAll ps rs →
    ∀ q, lastFor rs p.key = some q → updEq p q := by
  induction rs using List.reverseRecOn with
  | nil =>
    intro ps p _ q hq
    cases hq
  | append_singleton l r ih =>
    intro ps p hp q hq
    rw [upsertAll_append_singleton] at hp
    rw [lastFor_append] at hq
    by_cases hs : ∃ x ∈ upsertAll ps l, x.key = r.key
    · rw [upsertPrice_pos _ _ hs] at hp
      obtain ⟨x, hx, rfl⟩ := List.mem_map.mp hp
      by_cases hk : x.key = r.key
      · rw [condUpd_key, if_pos hk.symm] at hq
        obtain rfl := Option.some.inj hq
        rw [if_pos hk]
        exact ⟨rfl, rfl, rfl, rfl, rfl, rfl, rfl, rfl, rfl⟩
      · rw [condUpd_key, if_neg (fun hh => hk hh.symm)] at hq
        rw [if_neg hk]
        exact ih ps x hx q hq
    · rw [upsertPrice_neg _ _ hs] at hp
      rcases List.mem_append.mp hp with hp | hp
      · have hk : p.key ≠ r.key := fun hh => hs ⟨p, hp, hh⟩
        rw [if_neg (fun hh => hk hh.symm)] at hq
        exact ih ps p hp q hq
      · rw [List.mem_singleton] at hp
        subst hp
        rw [if_pos rfl] at hq
        obtain rfl := Option.some.inj hq
        exact ⟨rfl, rfl, rfl, rfl, rfl, rfl, rfl, rfl, rfl⟩

theorem toRows_restamp (b : Batch) (rng interval rid1 now1 rid2 now2 : String) :
    toRows b rng interval rid2 now2
      = (toRows b rng interval rid1 now1).map (restamp now2 rid2) := by
  unfold toRows
  rw [List.map_map]
  exact List.map_congr_left (fun x _ => rfl)

theorem batchKeys_eq (b : Batch) (rng interval rid now : String) :
    (toRows b rng interval rid now).map PriceRow.key = batchKeys b rng interval := by
  unfold batchKeys toRows
  rw [List.map_map, List.map_map]
  exact List.map_congr_left (fun x _ => rfl)

theorem lastFor_map_restamp (rs : List PriceRow) (now rid : String)
    (k : String × String × String) :
    lastFor (rs.map (restamp now rid)) k = (lastFor rs k).map (restamp now rid) := by
  induction rs with
  | nil => rfl
  | cons a rest ih =>
    simp only [List.map_cons]
    cases e : lastFor rest k with
    | some q =>
      have e2 : lastFor (rest.map (restamp now rid)) k = some (restamp now rid q) := by
        rw [ih, e]
        rfl
      rw [lastFor_cons_some _ e2, lastFor_cons_some a e]
      rfl
    | none =>
      have e2 : lastFor (rest.map (restamp now rid)) k = none := by
        rw [ih, e]
        rfl
      rw [lastFor_cons_none _ e2, lastFor_cons_none a e]
      rw [show (restamp now rid a).key = a.key from rfl]
      by_cases ha : a.key = k
      · rw [if_pos ha, if_pos ha]
        rfl
      · rw [if_neg ha, if_neg ha]
        rfl

/-- C1: re-running `ingest_prices` with an identical input batch (same
batch, range and interval; the run id, note and timestamps of the second
call may differ) is idempotent: the `prices` table after the second call is
the table after the first call with only the ingestion stamps of the rows
the batch touches rewritten to the second call's values; in particular the
row count is unchanged and every non-key field of every touched row equals
the value the latest call writes. -/
theorem C1_reingest_idempotent {b : Batch} {rng interval : String}
    {rid1? rid2? : Option String} {note1 note2 : Option String}
    {fresh1 now1 fresh2 now2 : String} {db0 db1 db2 : DB} {r1 r2 : String}
    (h1 : ingest_prices b rng interval rid1? note1 fresh1 now1 db0 = .ok (db1, r1))
    (h2 : ingest_prices b rng interval rid2? note2 fresh2 now2 db1 = .ok (db2, r2)) :
    db2.prices = db1.prices.map
      (fun p => if p.key ∈ batchKeys b rng interval then restamp now2 r2 p else p) ∧
    db2.prices.length = db1.prices.length := by
  obtain ⟨_, hp1, _⟩ := ingest_ok_inv h1
  obtain ⟨_, hp2, _⟩ := ingest_ok_inv h2
  have hmap : toRows b rng interval r2 now2
      = (toRows b rng interval r1 now1).map (restamp now2 r2) :=
    toRows_restamp b rng interval r1 now1 r2 now2
  have hpresent : ∀ r ∈ toRows b rng interval r2 now2, ∃ p ∈ db1.prices, p.key = r.key := by
    intro r hr
    rw [hmap] at hr
    obtain ⟨x, hx, rfl⟩ := List.mem_map.mp hr
    have hk := upsertAll_key_mem (toRows b rng interval r1 now1) db0.prices x hx
    rw [← hp1] at hk
    obtain ⟨q, hq, hkq⟩ := hk
    exact ⟨q, hq, by rw [show (restamp now2 r2 x).key = x.key from rfl]; exact hkq⟩
  have hD : upsertAll db1.prices (toRows b rng interval r2 now2)
      = db1.prices.map (applyLast (toRows b rng interval r2 now2)) :=
    upsertAll_all_present _ _ hpresent
  have hpoint : ∀ p ∈ db1.prices,
      applyLast (toRows b rng interval r2 now2) p
        = if p.key ∈ batchKeys b rng interval then restamp now2 r2 p else p := by
    intro p hp
    cases e : lastFor (toRows b rng interval r2 now2) p.key with
    | none =>
      unfold applyLast
      rw [e]
      have hnotin : p.key ∉ batchKeys b rng interval := by
        intro hin
        rw [← batchKeys_eq b rng interval r2 now2] at hin
        obtain ⟨x, hx, hk⟩ := List.mem_map.mp hin
        exact (lastFor_none_iff.mp e) x hx hk
      rw [if_neg hnotin]
    | some q =>
      unfold applyLast
      rw [e]
      have hmemk := lastFor_mem e
      have hin : p.key ∈ batchKeys b rng interval := by
        rw [← batchKeys_eq b rng interval r2 now2]
        exact List.mem_map.mpr ⟨q, hmemk.1, hmemk.2⟩
      rw [if_pos hin]
      rw [hmap, lastFor_map_restamp] at e
      cases e1 : lastFor (toRows b rng interval r1 now1) p.key with
      | none =>
        rw [e1] at e
        cases e
      | some q1 =>
        rw [e1] at e
        obtain rfl : restamp now2 r2 q1 = q := Option.some.inj e
        have hupd : updEq p q1 := by
          refine upsertAll_lastFor (toRows b rng interval r1 now1) db0.prices p ?_ q1 e1
          rw [← hp1]
          exact hp
        obtain ⟨ho, hh, hl, hc, hv, ha, hrg, _, _⟩ := hupd
        apply PriceRow.ext <;>
          simp [setUpd, restamp, ho, hh, hl, hc, hv, ha, hrg]
  constructor
  · rw [hp2, hD]
    exact List.map_congr_left hpoint
  · rw [hp2, hD, List.length_map]

/-! ## C8: run logging -/

theorem upsertPrice_mem_untouched (ps : List PriceRow) (r : PriceRow) (p : PriceRow)
    (hp : p ∈ ps) (hk : r.key ≠ p.key) : p ∈ upsertPrice ps r := by
  by_cases hs : ∃ x ∈ ps, x.key = r.key
  · rw [upsertPrice_pos ps r hs]
    have he : (if p.key = r.key then setUpd p r else p) = p :=
      if_neg (fun hh => hk hh.symm)
    exact he ▸ List.mem_map_of_mem _ hp
  · rw [upsertPrice_neg ps r hs]
    exact List.mem_append_left _ hp

theorem upsertAll_mem_untouched (rs : List PriceRow) (ps : List PriceRow)
    (p : PriceRow) (hp : p ∈ ps) (h : ∀ r ∈ rs, r.key ≠ p.key) :
    p ∈ upsertAll ps rs := by
  induction rs generalizing ps with
  | nil => exact hp
  | cons r rest ih =>
    rw [upsertAll_cons]
    exact ih _ (upsertPrice_mem_untouched ps r p hp (h r (List.mem_cons_self r rest)))
      (fun x hx => h x (List.mem_cons_of_mem r hx))

theorem upsertPrice_exists_frame (ps : List PriceRow) (r : PriceRow) (p : PriceRow)
    (hp : p ∈ ps) : ∃ q ∈ upsertPrice ps r, q.key = p.key ∧ frameEq q p := by
  by_cases hs : ∃ x ∈ ps, x.key = r.key
  · rw [upsertPrice_pos ps r hs]
    exact ⟨_, List.mem_map_of_mem _ hp, condUpd_key r p, frameEq_condUpd r p⟩
  · rw [upsertPrice_neg ps r hs]
    exact ⟨p, List.mem_append_left _ hp, rfl, frameEq_refl p⟩

theorem upsertAll_exists_frame (rs : List PriceRow) (ps : List PriceRow)
    (p : PriceRow) (hp : p ∈ ps) :
    ∃ q ∈ upsertAll ps rs, q.key = p.key ∧ frameEq q p := by
  induction rs generalizing ps p with
  | nil => exact ⟨p, hp, rfl, frameEq_refl p⟩
  | cons r rest ih =>
    rw [upsertAll_cons]
    obtain ⟨q1, hq1, hk1, hf1⟩ := upsertPrice_exists_frame ps r p hp
    obtain ⟨q2, hq2, hk2, hf2⟩ := ih _ q1 hq1
    exact ⟨q2, hq2, hk2.trans hk1, frameEq_trans hf2 hf1⟩

/-- C8 (amended): each `ingest_prices` call writes exactly one summary row
into `runs` keyed by the run identifier and carrying the call's row count,
and returns the run identifier used (the freshly generated one when none was
supplied); replacing an existing run summary never deletes price rows: every
pre-existing price row whose key the call's batch does not write is still
present unchanged, and every pre-existing price row still has a row with its
key and all its identity fields. -/
theorem C8_run_replaced_prices_kept {b : Batch} {rng interval : String}
    {runId? note : Option String} {fresh now : String} {db db2 : DB} {rid : String}
    (h : ingest_prices b rng interval runId? note fresh now db = .ok (db2, rid)) :
    rid = runId?.getD fresh ∧
    db2.runs = replaceRun db.runs ⟨rid, now, rng, interval, b.rows.length, note⟩ ∧
    (∀ p ∈ db.prices, p.key ∉ batchKeys b rng interval → p ∈ db2.prices) ∧
    (∀ p ∈ db.prices, ∃ q ∈ db2.prices, q.key = p.key ∧ frameEq q p) := by
  obtain ⟨hrid, hp, hruns, _, _, _⟩ := ingest_ok_inv h
  refine ⟨hrid, hruns, ?_, ?_⟩
  · intro p hp2 hnot
    rw [hp]
    refine upsertAll_mem_untouched _ _ _ hp2 ?_
    intro r hr hk
    apply hnot
    rw [← batchKeys_eq b rng interval rid now]
    exact List.mem_map.mpr ⟨r, hr, hk⟩
  · intro p hp2
    rw [hp]
    exact upsertAll_exists_frame _ _ _ hp2

/-- C8 counterexample: the claim additionally asserts that calling again
with the same run identifier "never deletes or alters the price rows written
by the earlier call"; replaying the identical one-row batch under the same
run id five minutes later keeps the key but rewrites the stored row's
`ingested_at`, so the earlier call's price row is altered. -/
theorem C8_counterexample :
    ingest_prices exBatch "12d" "5m" (some "run-1") none "f1"
        "2024-01-01 00:00:00" initDb = .ok (exDb1, "run-1") ∧
    ingest_prices exBatch "12d" "5m" (some "run-1") none "f2"
        "2024-01-01 00:05:00" exDb1 = .ok (exDb2, "run-1") ∧
    exDb1.prices.map PriceRow.key = exDb2.prices.map PriceRow.key ∧
    exDb1.prices.map PriceRow.ingested_at = ["2024-01-01 00:00:00"] ∧
    exDb2.prices.map PriceRow.ingested_at = ["2024-01-01 00:05:00"] ∧
    exDb1.prices ≠ exDb2.prices := by
  refine ⟨rfl, rfl, rfl, rfl, rfl, ?_⟩
  intro hEq
  have hmap := congrArg (List.map PriceRow.ingested_at) hEq
  rw [show exDb1.prices.map PriceRow.ingested_at = ["2024-01-01 00:00:00"] from rfl,
      show exDb2.prices.map PriceRow.ingested_at = ["2024-01-01 00:05:00"] from rfl] at hmap
  exact absurd hmap (by decide)

/-! ## Facts about the built frame (`fetch_yahoo_chart` parsing) -/

theorem length_insertByInstant (r : FetchRow) (l : List FetchRow) :
    (insertByInstant r l).length = l.length + 1 := by
  induction l with
  | nil => rfl
  | cons q rest ih =>
    unfold insertByInstant
    by_cases h : r.instant ≤ q.instant
    · rw [if_pos h]
      rfl
    · rw [if_neg h]
      simp [ih]

theorem length_sortByInstant (l : List FetchRow) :
    (sortByInstant l).length = l.length := by
  induction l with
  | nil => rfl
  | cons r rest ih =>
    unfold sortByInstant
    rw [length_insertByInstant, ih]
    rfl

theorem mem_insertByInstant {x r : FetchRow} {l : List FetchRow} :
    x ∈ insertByInstant r l ↔ x = r ∨ x ∈ l := by
  induction l with
  | nil => simp [insertByInstant]
  | cons q rest ih =>
    unfold insertByInstant
    by_cases h : r.instant ≤ q.instant
    · rw [if_pos h]
      simp [List.mem_cons]
    · rw [if_neg h]
      simp [List.mem_cons, ih]
      tauto

theorem mem_sortByInstant {x : FetchRow} {l : List FetchRow} :
    x ∈ sortByInstant l ↔ x ∈ l := by
  induction l with
  | nil => simp [sortByInstant]
  | cons r rest ih =>
    unfold sortByInstant
    rw [mem_insertByInstant, List.mem_cons, ih]

theorem length_buildRows (sym rng interval : String) (cr : ChartResult) :
    (buildRows sym rng interval cr).length = cr.timestamp.length := by
  simp [buildRows]

/-- C6: for every symbol whose fetch succeeds, the row count of the table
returned by `fetch_yahoo_chart` equals the length of the provider's
timestamp array, regardless of the lengths of the open/high/low/close/volume
arrays in the quote block (on which no hypothesis is made). -/
theorem C6_rowcount_eq_timestamps (sym rng interval : String) (body : ChartBody)
    (rows : List FetchRow) (m : String) (cr : ChartResult)
    (hcr : body.result.head? = some cr)
    (h : parseChart sym rng interval body = .ok (rows, m)) :
    rows.length = cr.timestamp.length := by
  unfold parseChart at h
  split at h
  · exact absurd h (by simp)
  · split at h
    · exact absurd h (by simp)
    · next cr2 heq =>
      obtain rfl := Option.some.inj (hcr.symm.trans heq)
      split at h
      · exact absurd h (by simp)
      · rw [Except.ok.injEq, Prod.mk.injEq] at h
        obtain ⟨h1, _⟩ := h
        rw [← h1, length_sortByInstant, length_buildRows]

/-- C5: the adjusted-close column is taken from the provider's adjclose
array only when it is non-empty and its length equals the number of
timestamps; in every other case adjusted-close is null for every produced
row; and on the concrete example (timestamp `[1700000000]`, the given quote
block, no adjclose) the single produced row has adjusted-close null and UTC
instant `2023-11-14 22:13:20`. -/
theorem C5_adjclose_guard :
    (∀ (sym rng interval : String) (cr : ChartResult), ¬ adjUsable cr →
       ∀ r ∈ sortByInstant (buildRows sym rng interval cr), r.adjclose = none) ∧
    (∀ (sym rng interval : String) (cr : ChartResult) (i : Nat) (r : FetchRow),
       adjUsable cr → (buildRows sym rng interval cr).get? i = some r →
       r.adjclose = cr.adjclose.getD i none) ∧
    (parseChart "AKBNK.IS" "12d" "5m" exBody).map
        (fun p => p.1.map (fun r => (r.adjclose, fmtEpoch r.instant)))
      = .ok [(none, "2023-11-14 22:13:20")] := by
  refine ⟨?_, ?_, ?_⟩
  · intro sym rng interval cr hna r hr
    rw [mem_sortByInstant] at hr
    unfold buildRows at hr
    obtain ⟨p, _, rfl⟩ := List.mem_map.mp hr
    simp [buildRow, hna]
  · intro sym rng interval cr i r hu hget
    unfold buildRows at hget
    rw [List.get?_eq_getElem?, List.getElem?_map] at hget
    cases he : cr.timestamp.enum[i]? with
    | none =>
      rw [he] at hget
      cases hget
    | some pr =>
      rw [he] at hget
      obtain rfl := Option.some.inj hget
      have hfst : pr.1 = i := by
        rw [List.getElem?_enum] at he
        cases ht : cr.timestamp[i]? with
        | none =>
          rw [ht] at he
          cases he
        | some t =>
          rw [ht] at he
          obtain rfl := (Option.some.inj he).symm
          rfl
      simp [buildRow, hu, colAt, hfst]
  · rfl

/-! ## C7: the host retry loop -/

theorem tryHostsGo_noOk (atts : List Attempt) (acc : Option String)
    (h : ∀ a ∈ atts, a.isOk = false) :
    tryHostsGo atts acc
      = .error (List.foldl
          (fun acc a => match a with
            | .fail e => some e
            | _ => acc)
          acc atts) := by
  induction atts generalizing acc with
  | nil => rfl
  | cons a rest ih =>
    cases a with
    | rateLimited => exact ih acc (fun x hx => h x (List.mem_cons_of_mem _ hx))
    | fail e => exact ih (some e) (fun x hx => h x (List.mem_cons_of_mem _ hx))
    | ok b =>
      exact absurd (h _ (List.mem_cons_self _ _)) (by simp [Attempt.isOk])

theorem tryHostsGo_firstOk (l1 : List Attempt) (body : ChartBody)
    (l2 : List Attempt) (acc : Option String) (h : ∀ a ∈ l1, a.isOk = false) :
    tryHostsGo (l1 ++ .ok body :: l2) acc = .ok body := by
  induction l1 generalizing acc with
  | nil => rfl
  | cons a rest ih =>
    cases a with
    | rateLimited => exact ih acc (fun x hx => h x (List.mem_cons_of_mem _ hx))
    | fail e => exact ih (some e) (fun x hx => h x (List.mem_cons_of_mem _ hx))
    | ok b =>
      exact absurd (h _ (List.mem_cons_self _ _)) (by simp [Attempt.isOk])

/-- C7: the data request is attempted against the two API hosts in
round-robin order for at most two full passes (four total attempts: the
iteration-host list is exactly query1, query2, query1, query2), stopping at
the first attempt that yields a parseable JSON body; if no attempt yields
one, the fetch fails with a FetchFailure carrying the last observed error. -/
theorem C7_host_failover :
    hostsTwice = ["query1.finance.yahoo.com", "query2.finance.yahoo.com",
                  "query1.finance.yahoo.com", "query2.finance.yahoo.com"] ∧
    (∀ (sym rng interval : String) (net : Nat → Attempt) (l1 : List Attempt)
       (body : ChartBody) (l2 : List Attempt),
       (List.range hostsTwice.length).map net = l1 ++ .ok body :: l2 →
       (∀ a ∈ l1, a.isOk = false) →
       fetch_yahoo_chart sym rng interval net = parseChart sym rng interval body) ∧
    (∀ (sym rng interval : String) (net : Nat → Attempt),
       (∀ a ∈ (List.range hostsTwice.length).map net, a.isOk = false) →
       fetch_yahoo_chart sym rng interval net
         = .error (.fetchFailure (lastFailure ((List.range hostsTwice.length).map net)))) := by
  refine ⟨rfl, ?_, ?_⟩
  · intro sym rng interval net l1 body l2 hdec hno
    unfold fetch_yahoo_chart tryHosts
    rw [hdec, tryHostsGo_firstOk l1 body l2 none hno]
  · intro sym rng interval net hno
    unfold fetch_yahoo_chart tryHosts lastFailure
    rw [tryHostsGo_noOk _ none hno]

/-! ## C4: the batch orchestrator accounts for every symbol -/

theorem fetchBatch_metas (symbols : List String) (rng interval : String)
    (net : String → Nat → Attempt) :
    (fetch_batch symbols rng interval net).2.1.map Prod.fst
      = symbols.filter (fetchOk rng interval net) := by
  induction symbols with
  | nil => rfl
  | cons s rest ih =>
    unfold fetch_batch at ih ⊢
    cases e : fetch_yahoo_chart s rng interval (net s) with
    | ok pr =>
      simp [fetchBatchGo, e, List.filter_cons, fetchOk, isOkE, ih]
    | error err =>
      simp [fetchBatchGo, e, List.filter_cons, fetchOk, isOkE, ih]

theorem fetchBatch_errors (symbols : List String) (rng interval : String)
    (net : String → Nat → Attempt) :
    (fetch_batch symbols rng interval net).2.2.map Prod.fst
      = symbols.filter (fun s => ! fetchOk rng interval net s) := by
  induction symbols with
  | nil => rfl
  | cons s rest ih =>
    unfold fetch_batch at ih ⊢
    cases e : fetch_yahoo_chart s rng interval (net s) with
    | ok pr =>
      simp [fetchBatchGo, e, List.filter_cons, fetchOk, isOkE, ih]
    | error err =>
      simp [fetchBatchGo, e, List.filter_cons, fetchOk, isOkE, ih]

theorem fetchBatch_rows (symbols : List String) (rng interval : String)
    (net : String → Nat → Attempt) :
    (fetch_batch symbols rng interval net).1
      = symbols.flatMap (fun s => rowsOf (fetch_yahoo_chart s rng interval (net s))) := by
  induction symbols with
  | nil => rfl
  | cons s rest ih =>
    unfold fetch_batch at ih ⊢
    cases e : fetch_yahoo_chart s rng interval (net s) with
    | ok pr =>
      simp [fetchBatchGo, e, rowsOf, ih]
    | error err =>
      simp [fetchBatchGo, e, rowsOf, ih]

/-- C4: `fetch_batch` attempts every symbol exactly once in input order: the
metadata entries are exactly the successful symbols in order, the error
entries are exactly the failing symbols in order, the returned rows are the
concatenation of each successful symbol's rows in order, and the success and
failure sets are disjoint and together cover the input symbols. -/
theorem C4_batch_accounting (symbols : List String) (rng interval : String)
    (net : String → Nat → Attempt) :
    (fetch_batch symbols rng interval net).2.1.map Prod.fst
      = symbols.filter (fetchOk rng interval net) ∧
    (fetch_batch symbols rng interval net).2.2.map Prod.fst
      = symbols.filter (fun s => ! fetchOk rng interval net s) ∧
    (fetch_batch symbols rng interval net).1
      = symbols.flatMap (fun s => rowsOf (fetch_yahoo_chart s rng interval (net s))) ∧
    (∀ s, s ∈ (fetch_batch symbols rng interval net).2.1.map Prod.fst ↔
       s ∈ symbols ∧ fetchOk rng interval net s = true) ∧
    (∀ s, s ∈ (fetch_batch symbols rng interval net).2.2.map Prod.fst ↔
       s ∈ symbols ∧ fetchOk rng interval net s = false) := by
  refine ⟨fetchBatch_metas symbols rng interval net,
          fetchBatch_errors symbols rng interval net,
          fetchBatch_rows symbols rng interval net, ?_, ?_⟩
  · intro s
    rw [fetchBatch_metas symbols rng interval net, List.mem_filter]
  · intro s
    rw [fetchBatch_errors symbols rng interval net, List.mem_filter]
    simp

/-! ## Concrete witnesses -/

theorem C1_witness :
    (ingest_prices exBatch "12d" "5m" (some "run-1") none "f1"
        "2024-01-01 00:00:00" initDb = .ok (exDb1, "run-1")) ∧
    (ingest_prices exBatch "12d" "5m" (some "run-1") none "f2"
        "2024-01-01 00:05:00" exDb1 = .ok (exDb2, "run-1")) ∧
    exDb2.prices = exDb1.prices.map
      (fun p => if p.key ∈ batchKeys exBatch "12d" "5m"
        then restamp "2024-01-01 00:05:00" "run-1" p else p) ∧
    exDb2.prices.length = exDb1.prices.length :=
  ⟨rfl, rfl,
    (C1_reingest_idempotent
      (show ingest_prices exBatch "12d" "5m" (some "run-1") none "f1"
          "2024-01-01 00:00:00" initDb = .ok (exDb1, "run-1") from rfl)
      (show ingest_prices exBatch "12d" "5m" (some "run-1") none "f2"
          "2024-01-01 00:05:00" exDb1 = .ok (exDb2, "run-1") from rfl)).1,
    (C1_reingest_idempotent
      (show ingest_prices exBatch "12d" "5m" (some "run-1") none "f1"
          "2024-01-01 00:00:00" initDb = .ok (exDb1, "run-1") from rfl)
      (show ingest_prices exBatch "12d" "5m" (some "run-1") none "f2"
          "2024-01-01 00:05:00" exDb1 = .ok (exDb2, "run-1") from rfl)).2⟩

theorem C2_witness : keysNodup exDb1.prices :=
  C2_natural_key_unique exDb1
    (Reachable.step exBatch "12d" "5m" (some "run-1") none "f1"
      "2024-01-01 00:00:00" Reachable.init)

theorem C3_witness :
    exBatchNoVol.hasDatetime = true ∧ missingRequired exBatchNoVol ≠ [] ∧
    (ingest_prices exBatchNoVol "12d" "5m" none none "f1"
        "2024-01-01 00:00:00" initDb
      = .error (.missingCols (missingRequired exBatchNoVol)) ∧
     runIngest exBatchNoVol "12d" "5m" none none "f1"
        "2024-01-01 00:00:00" initDb = (initDb, none)) :=
  ⟨rfl, by decide,
    C3_missing_required_fails "12d" "5m" none none "f1" "2024-01-01 00:00:00" initDb
      (show exBatchNoVol.hasDatetime = true from rfl)
      (show missingRequired exBatchNoVol ≠ [] from by decide)⟩

theorem C5_witness :
    (¬ adjUsable exChartMismatch) ∧
    (buildRow "A" "1d" "5m" exChartMismatch 0 1700000600).adjclose = none :=
  ⟨by decide,
    C5_adjclose_guard.1 "A" "1d" "5m" exChartMismatch (by decide)
      (buildRow "A" "1d" "5m" exChartMismatch 0 1700000600) (by decide)⟩

theorem C6_witness :
    exBodyMismatch.result.head? = some exChartMismatch ∧
    parseChart "A" "1d" "5m" exBodyMismatch
      = .ok (sortByInstant (buildRows "A" "1d" "5m" exChartMismatch), "m2") ∧
    (sortByInstant (buildRows "A" "1d" "5m" exChartMismatch)).length
      = exChartMismatch.timestamp.length :=
  ⟨rfl, rfl,
    C6_rowcount_eq_timestamps "A" "1d" "5m" exBodyMismatch
      (sortByInstant (buildRows "A" "1d" "5m" exChartMismatch)) "m2"
      exChartMismatch rfl rfl⟩

theorem C7_witness :
    (List.range hostsTwice.length).map exNet
      = [.fail "boom", .ok exBody, .ok exBody, .ok exBody] ∧
    fetch_yahoo_chart "AKBNK.IS" "12d" "5m" exNet
      = parseChart "AKBNK.IS" "12d" "5m" exBody :=
  ⟨rfl,
    C7_host_failover.2.1 "AKBNK.IS" "12d" "5m" exNet [.fail "boom"] exBody
      [.ok exBody, .ok exBody] rfl (by decide)⟩

theorem C8_witness :
    "run-1" = (some "run-1" : Option String).getD "f2" ∧
    exDb2.runs = replaceRun exDb1.runs
      ⟨"run-1", "2024-01-01 00:05:00", "12d", "5m", exBatch.rows.length, none⟩ :=
  ⟨(C8_run_replaced_prices_kept
      (show ingest_prices exBatch "12d" "5m" (some "run-1") none "f2"
          "2024-01-01 00:05:00" exDb1 = .ok (exDb2, "run-1") from rfl)).1,
   (C8_run_replaced_prices_kept
      (show ingest_prices exBatch "12d" "5m" (some "run-1") none "f2"
          "2024-01-01 00:05:00" exDb1 = .ok (exDb2, "run-1") from rfl)).2.1⟩

theorem C9_witness : framePres exDb1.prices exDb2.prices :=
  C9_conflict_update_frame
    (show ingest_prices exBatch "12d" "5m" (some "run-1") none "f2"
        "2024-01-01 00:05:00" exDb1 = .ok (exDb2, "run-1") from rfl)

theorem C10_witness :
    (toRow exBatch "12d" "5m" "run-1" "2024-01-01 00:00:00" exSrcRow).datetime_utc
      = (toRow exBatch "12d" "5m" "run-1" "2024-01-01 00:00:00" exSrcRow).datetime_local :=
  C10_naive_treated_as_utc
    (show exBatch.tzAware = false from rfl)
    (fun p hp => absurd hp (List.not_mem_nil p))
    (show ingest_prices exBatch "12d" "5m" (some "run-1") none "f1"
        "2024-01-01 00:00:00" initDb = .ok (exDb1, "run-1") from rfl)
    (toRow exBatch "12d" "5m" "run-1" "2024-01-01 00:00:00" exSrcRow)
    (by decide)

end Bist
